import Mathlib

/-!
A shallow embedding of `src/Serializer.h` (karanbopche/Serializer) and proofs
about its encoder and decoder.

The C header generates, per record type, a constant field-descriptor table
(`SERIALIZER_CREATE_META_IMPL`), a serializer (`SERIALIZER_CREATE_SERIALIZER_IMPL`),
a by-id descriptor lookup (`SERIALIZER_STRUCT_GET_META_FIELD_BY_ID_IMPL`) and a
deserializer (`SERIALIZER_CREATE_DESERIALIZER_IMPL`).  All of these are uniform
in the descriptor table, the stream id and the record size, so the embedding
makes those explicit parameters instead of macro arguments.

Buffers and records are lists of byte values; `memcpy` of `n` bytes from
position `p` of one buffer to position `q` of another becomes `writeBytes`
of `readBytes`.  Multi-byte integers are read and written little-endian,
matching the wire format on the little-endian hosts the header is written for.
A read past the end of a buffer (undefined behaviour in the C) yields byte 0
in the model; every positive theorem below carries bounds hypotheses under
which no such read occurs.
-/

namespace Serializer

/-- The field descriptor `Serializer_Field_Meta_t`: a stable field identifier
together with the field's offset and size inside the record's own memory
representation (`uint32_t type_id; uint16_t offset; uint16_t size`). -/
structure Serializer_Field_Meta_t where
  type_id : Nat
  offset  : Nat
  size    : Nat
deriving DecidableEq, Repr

/-- The decoder's error enumeration `Deserializer_Error_t`; the C enum has
exactly the two values below. -/
inductive Deserializer_Error_t where
  | NONE
  | STREAM_ID_MISMATCH
deriving DecidableEq, Repr

/-- A byte buffer: the model of a C `uint8_t` region. -/
abbrev Buffer := List Nat

/-- The byte at index `i` of a buffer (0 past the end). -/
def byteAt (b : Buffer) (i : Nat) : Nat := b.getD i 0

/-- Little-endian read of a `uint16_t` at position `p`. -/
def read16 (b : Buffer) (p : Nat) : Nat :=
  byteAt b p + 256 * byteAt b (p + 1)

/-- Little-endian read of a `uint32_t` at position `p`. -/
def read32 (b : Buffer) (p : Nat) : Nat :=
  byteAt b p + 256 * byteAt b (p + 1) + 65536 * byteAt b (p + 2) +
    16777216 * byteAt b (p + 3)

/-- The two little-endian bytes of a `uint16_t` value. -/
def le16 (x : Nat) : Buffer := [x % 256, x / 256 % 256]

/-- The four little-endian bytes of a `uint32_t` value. -/
def le32 (x : Nat) : Buffer :=
  [x % 256, x / 256 % 256, x / 65536 % 256, x / 16777216 % 256]

/-- The 8-byte memory image of one `Serializer_Field_Meta_t` (the struct is
packed: 4-byte id, 2-byte offset, 2-byte size, no padding). -/
def metaBytes (m : Serializer_Field_Meta_t) : Buffer :=
  le32 m.type_id ++ le16 m.offset ++ le16 m.size

/-- The memory image of a whole descriptor table, in declared order. -/
def metaTableBytes (ms : List Serializer_Field_Meta_t) : Buffer :=
  (ms.map metaBytes).flatten

/-- `memcpy(dst, b + p, len)` as a value: the `len` bytes of `b` starting
at position `p`. -/
def readBytes (b : Buffer) (p len : Nat) : Buffer :=
  (List.range len).map (fun j => byteAt b (p + j))

/-- `memcpy(dst + off, src, src.length)`: overwrite the bytes of `dst`
starting at `off` with `src`, leaving the rest of `dst` unchanged.  The
destination keeps its length (a write past its end would be undefined
behaviour in the C; theorems below always keep `off + src.length` within
`dst`). -/
def writeBytes (dst : Buffer) (off : Nat) (src : Buffer) : Buffer :=
  (List.range dst.length).map (fun i =>
    if off ≤ i ∧ i < off + src.length then byteAt src (i - off) else byteAt dst i)

/-- Reading one `Serializer_Field_Meta_t` out of a buffer at position `p`
(the `memcpy(&received_meta_field, meta_field_ptr, sizeof ...)` of the
deserializer). -/
def readMeta (b : Buffer) (p : Nat) : Serializer_Field_Meta_t :=
  ⟨read32 b p, read16 b (p + 4), read16 b (p + 6)⟩

/-- `Serializer_Get_<name>_Meta_Field_By_ID`: linear scan of the local
descriptor table, first descriptor whose `type_id` matches, else `NULL`. -/
def Serializer_Get_Meta_Field_By_ID (meta : List Serializer_Field_Meta_t)
    (type_id : Nat) : Option Serializer_Field_Meta_t :=
  meta.find? (fun m => m.type_id == type_id)

/-- `Serialize_<name>` from `SERIALIZER_CREATE_SERIALIZER_IMPL`: into the
caller's buffer write, advancing the cursor after each `memcpy`:
the stream id (4 bytes), the descriptor count (4 bytes), the raw bytes of
the descriptor table, then the raw memory image of the record. -/
def Serialize (stream_id : Nat) (meta : List Serializer_Field_Meta_t)
    (obj : Buffer) (buffer : Buffer) : Buffer :=
  let b1 := writeBytes buffer 0 (le32 stream_id)
  let b2 := writeBytes b1 4 (le32 meta.length)
  let b3 := writeBytes b2 8 (metaTableBytes meta)
  writeBytes b3 (8 + 8 * meta.length) obj

/-- The loop of `Deserialize_<name>`: process `count` received descriptors,
reading each at the cursor `pos` (which advances by 8), matching it by id
against the local table, and on a match copying `our.size` bytes from the
payload (which starts at `payloadStart`) at the received offset into the
output record at the local offset. -/
def Deserialize_loop (localMeta : List Serializer_Field_Meta_t) (buffer : Buffer)
    (payloadStart : Nat) : Nat → Nat → Buffer → Buffer
  | _, 0, obj => obj
  | pos, count + 1, obj =>
    let rm := readMeta buffer pos
    let obj' :=
      match Serializer_Get_Meta_Field_By_ID localMeta rm.type_id with
      | some our =>
          writeBytes obj our.offset (readBytes buffer (payloadStart + rm.offset) our.size)
      | none => obj
    Deserialize_loop localMeta buffer payloadStart (pos + 8) count obj'

/-- `Deserialize_<name>` from `SERIALIZER_CREATE_DESERIALIZER_IMPL`: check the
received stream id against the expected one (returning
`STREAM_ID_MISMATCH` before touching the record on a mismatch), read the
received descriptor count, then run the copy loop; always ends in `NONE`. -/
def Deserialize (stream_id : Nat) (localMeta : List Serializer_Field_Meta_t)
    (buffer : Buffer) (obj : Buffer) : Deserializer_Error_t × Buffer :=
  let received_stream_id := read32 buffer 0
  if received_stream_id ≠ stream_id then
    (Deserializer_Error_t.STREAM_ID_MISMATCH, obj)
  else
    let received_meta_size := read32 buffer 4
    (Deserializer_Error_t.NONE,
      Deserialize_loop localMeta buffer (8 + 8 * received_meta_size) 8
        received_meta_size obj)

/-- The complete frame produced by the serializer, as a standalone byte list:
stream id, descriptor count, descriptor table, record image. -/
def frameBytes (stream_id : Nat) (meta : List Serializer_Field_Meta_t)
    (obj : Buffer) : Buffer :=
  le32 stream_id ++ le32 meta.length ++ metaTableBytes meta ++ obj

/-- A descriptor whose fields fit their declared C integer widths. -/
def MetaWF (m : Serializer_Field_Meta_t) : Prop :=
  m.type_id < 4294967296 ∧ m.offset < 65536 ∧ m.size < 65536

instance (m : Serializer_Field_Meta_t) : Decidable (MetaWF m) := by
  unfold MetaWF; infer_instance

/-- Schema invariant: all field identifiers pairwise distinct. -/
def uniqueIds (ms : List Serializer_Field_Meta_t) : Prop :=
  ms.Pairwise (fun a b => a.type_id ≠ b.type_id)

instance (ms : List Serializer_Field_Meta_t) : Decidable (uniqueIds ms) := by
  unfold uniqueIds; infer_instance

/-- Two descriptors address disjoint byte ranges of a record. -/
def rangeDisjoint (a b : Serializer_Field_Meta_t) : Prop :=
  a.offset + a.size ≤ b.offset ∨ b.offset + b.size ≤ a.offset

instance (a b : Serializer_Field_Meta_t) : Decidable (rangeDisjoint a b) := by
  unfold rangeDisjoint; infer_instance

/-! ### Byte-level lemmas -/

theorem byteAt_cons_zero (a : Nat) (l : Buffer) : byteAt (a :: l) 0 = a := rfl

theorem byteAt_cons_succ (a : Nat) (l : Buffer) (n : Nat) :
    byteAt (a :: l) (n + 1) = byteAt l n := rfl

theorem byteAt_append_left {A : Buffer} (B : Buffer) {i : Nat} (h : i < A.length) :
    byteAt (A ++ B) i = byteAt A i :=
  List.getD_append A B 0 i h

theorem byteAt_skip (A B : Buffer) (k : Nat) :
    byteAt (A ++ B) (A.length + k) = byteAt B k := by
  unfold byteAt
  rw [List.getD_append_right A B 0 (A.length + k) (Nat.le_add_right _ _)]
  congr 1
  omega

theorem buffer_ext {a b : Buffer} (hlen : a.length = b.length)
    (h : ∀ j < b.length, byteAt a j = byteAt b j) : a = b := by
  apply List.ext_getElem hlen
  intro i h1 h2
  have hb := h i h2
  rwa [byteAt, byteAt, List.getD_eq_getElem _ _ h1, List.getD_eq_getElem _ _ h2] at hb

theorem getD_map_range (n : Nat) (f : Nat → Nat) (i : Nat) :
    ((List.range n).map f).getD i 0 = if i < n then f i else 0 := by
  by_cases h : i < n
  · rw [List.getD_eq_getElem _ _ (by simpa using h)]
    simp [h]
  · rw [List.getD_eq_default _ _ (by simpa using Nat.le_of_not_lt h)]
    simp [h]

@[simp] theorem readBytes_length (b : Buffer) (p len : Nat) :
    (readBytes b p len).length = len := by
  simp [readBytes]

@[simp] theorem writeBytes_length (dst : Buffer) (off : Nat) (src : Buffer) :
    (writeBytes dst off src).length = dst.length := by
  simp [writeBytes]

theorem byteAt_readBytes (b : Buffer) (p len k : Nat) :
    byteAt (readBytes b p len) k = if k < len then byteAt b (p + k) else 0 := by
  unfold readBytes byteAt
  rw [getD_map_range]

theorem byteAt_writeBytes (dst : Buffer) (off : Nat) (src : Buffer) (i : Nat) :
    byteAt (writeBytes dst off src) i =
      if off ≤ i ∧ i < off + src.length ∧ i < dst.length then byteAt src (i - off)
      else byteAt dst i := by
  unfold writeBytes
  conv_lhs => rw [byteAt, getD_map_range]
  by_cases hd : i < dst.length
  · by_cases hr : off ≤ i ∧ i < off + src.length
    · simp [hd, hr]
    · simp only [hd, if_true, hr, if_false]
      rw [if_neg]
      intro hc
      exact hr ⟨hc.1, hc.2.1⟩
  · rw [if_neg hd, if_neg (by intro hc; exact hd hc.2.2)]
    rw [byteAt, List.getD_eq_default _ _ (by omega)]

@[simp] theorem le16_length (x : Nat) : (le16 x).length = 2 := rfl

@[simp] theorem le32_length (x : Nat) : (le32 x).length = 4 := rfl

@[simp] theorem metaBytes_length (m : Serializer_Field_Meta_t) :
    (metaBytes m).length = 8 := rfl

@[simp] theorem metaTableBytes_nil : metaTableBytes [] = [] := rfl

@[simp] theorem metaTableBytes_cons (m : Serializer_Field_Meta_t)
    (ms : List Serializer_Field_Meta_t) :
    metaTableBytes (m :: ms) = metaBytes m ++ metaTableBytes ms := by
  simp [metaTableBytes]

@[simp] theorem metaTableBytes_length (ms : List Serializer_Field_Meta_t) :
    (metaTableBytes ms).length = 8 * ms.length := by
  induction ms with
  | nil => rfl
  | cons m ms ih => simp [ih]; omega

theorem read32_at (A : Buffer) (x : Nat) (r : Buffer) (h : x < 4294967296) :
    read32 (A ++ (le32 x ++ r)) A.length = x := by
  have h0 : byteAt (A ++ (le32 x ++ r)) A.length = byteAt (le32 x ++ r) 0 := by
    have := byteAt_skip A (le32 x ++ r) 0
    simpa using this
  have e0 : byteAt (le32 x ++ r) 0 = x % 256 := rfl
  have e1 : byteAt (le32 x ++ r) 1 = x / 256 % 256 := rfl
  have e2 : byteAt (le32 x ++ r) 2 = x / 65536 % 256 := rfl
  have e3 : byteAt (le32 x ++ r) 3 = x / 16777216 % 256 := rfl
  unfold read32
  rw [h0, byteAt_skip, byteAt_skip, byteAt_skip, e0, e1, e2, e3]
  omega

theorem read16_at (A : Buffer) (x : Nat) (r : Buffer) (h : x < 65536) :
    read16 (A ++ (le16 x ++ r)) A.length = x := by
  have h0 : byteAt (A ++ (le16 x ++ r)) A.length = byteAt (le16 x ++ r) 0 := by
    have := byteAt_skip A (le16 x ++ r) 0
    simpa using this
  have e0 : byteAt (le16 x ++ r) 0 = x % 256 := rfl
  have e1 : byteAt (le16 x ++ r) 1 = x / 256 % 256 := rfl
  unfold read16
  rw [h0, byteAt_skip, e0, e1]
  omega

theorem readMeta_at (A : Buffer) (m : Serializer_Field_Meta_t) (r : Buffer)
    (h : MetaWF m) : readMeta (A ++ (metaBytes m ++ r)) A.length = m := by
  obtain ⟨h1, h2, h3⟩ := h
  have hassoc : A ++ (metaBytes m ++ r)
      = A ++ (le32 m.type_id ++ (le16 m.offset ++ (le16 m.size ++ r))) := by
    simp [metaBytes]
  have htid : read32 (A ++ (metaBytes m ++ r)) A.length = m.type_id := by
    rw [hassoc]; exact read32_at A m.type_id _ h1
  have hoff : read16 (A ++ (metaBytes m ++ r)) (A.length + 4) = m.offset := by
    rw [hassoc]
    have hre : A ++ (le32 m.type_id ++ (le16 m.offset ++ (le16 m.size ++ r)))
        = (A ++ le32 m.type_id) ++ (le16 m.offset ++ (le16 m.size ++ r)) := by
      simp [List.append_assoc]
    have hl : A.length + 4 = (A ++ le32 m.type_id).length := by simp
    rw [hre, hl]
    exact read16_at _ m.offset _ h2
  have hsz : read16 (A ++ (metaBytes m ++ r)) (A.length + 6) = m.size := by
    rw [hassoc]
    have hre : A ++ (le32 m.type_id ++ (le16 m.offset ++ (le16 m.size ++ r)))
        = ((A ++ le32 m.type_id) ++ le16 m.offset) ++ (le16 m.size ++ r) := by
      simp [List.append_assoc]
    have hl : A.length + 6 = ((A ++ le32 m.type_id) ++ le16 m.offset).length := by
      simp only [List.length_append, le32_length, le16_length]
    rw [hre, hl]
    exact read16_at _ m.size _ h3
  cases m with
  | mk t o s =>
    show (⟨_, _, _⟩ : Serializer_Field_Meta_t) = _
    rw [htid, hoff, hsz]

theorem readBytes_skip (A B : Buffer) (q n : Nat) :
    readBytes (A ++ B) (A.length + q) n = readBytes B q n := by
  unfold readBytes
  apply List.map_congr_left
  intro j _
  have : A.length + q + j = A.length + (q + j) := by omega
  rw [this, byteAt_skip]

/-! ### The decode loop as a fold over the received descriptor list -/

/-- One iteration of the deserializer's loop, as a function of the received
descriptor `rm`, reading the payload directly. -/
def decodeStep (localMeta : List Serializer_Field_Meta_t) (payload : Buffer)
    (obj : Buffer) (rm : Serializer_Field_Meta_t) : Buffer :=
  match Serializer_Get_Meta_Field_By_ID localMeta rm.type_id with
  | some our => writeBytes obj our.offset (readBytes payload rm.offset our.size)
  | none => obj

/-- The whole loop of the deserializer over a received descriptor list. -/
def decodeList (localMeta : List Serializer_Field_Meta_t) (payload : Buffer)
    (ms : List Serializer_Field_Meta_t) (obj : Buffer) : Buffer :=
  ms.foldl (decodeStep localMeta payload) obj

@[simp] theorem decodeList_nil (localMeta : List Serializer_Field_Meta_t)
    (payload obj : Buffer) : decodeList localMeta payload [] obj = obj := rfl

@[simp] theorem decodeList_cons (localMeta : List Serializer_Field_Meta_t)
    (payload obj : Buffer) (m : Serializer_Field_Meta_t)
    (ms : List Serializer_Field_Meta_t) :
    decodeList localMeta payload (m :: ms) obj
      = decodeList localMeta payload ms (decodeStep localMeta payload obj m) := rfl

theorem Deserialize_loop_split (localMeta : List Serializer_Field_Meta_t)
    (ms : List Serializer_Field_Meta_t) :
    ∀ (A payload obj : Buffer) (P : Nat),
      (∀ m ∈ ms, MetaWF m) → P = A.length + 8 * ms.length →
      Deserialize_loop localMeta (A ++ (metaTableBytes ms ++ payload)) P A.length
          ms.length obj
        = decodeList localMeta payload ms obj := by
  induction ms with
  | nil => intro A payload obj P hwf hP; rfl
  | cons m ms ih =>
    intro A payload obj P hwf hP
    have hwfm : MetaWF m := hwf m (List.mem_cons_self m ms)
    have hbuf : A ++ (metaTableBytes (m :: ms) ++ payload)
        = A ++ (metaBytes m ++ (metaTableBytes ms ++ payload)) := by
      simp [List.append_assoc]
    have hlen : (m :: ms).length = ms.length + 1 := rfl
    rw [hbuf, hlen]
    show Deserialize_loop localMeta
        (A ++ (metaBytes m ++ (metaTableBytes ms ++ payload))) P A.length
        (ms.length + 1) obj = _
    rw [Deserialize_loop]
    have hrm : readMeta (A ++ (metaBytes m ++ (metaTableBytes ms ++ payload)))
        A.length = m := readMeta_at A m _ hwfm
    rw [hrm]
    have hA' : A.length + 8 = (A ++ metaBytes m).length := by simp
    have hre : A ++ (metaBytes m ++ (metaTableBytes ms ++ payload))
        = (A ++ metaBytes m) ++ (metaTableBytes ms ++ payload) := by
      simp [List.append_assoc]
    have hread : ∀ sz, readBytes
          (A ++ (metaBytes m ++ (metaTableBytes ms ++ payload)))
          (P + m.offset) sz
        = readBytes payload m.offset sz := by
      intro sz
      have hre2 : A ++ (metaBytes m ++ (metaTableBytes ms ++ payload))
          = ((A ++ metaBytes m) ++ metaTableBytes ms) ++ payload := by
        simp [List.append_assoc]
      have hpl : P + m.offset
          = ((A ++ metaBytes m) ++ metaTableBytes ms).length + m.offset := by
        simp [hP, List.length_cons]; omega
      rw [hre2, hpl, readBytes_skip]
    cases hfind : Serializer_Get_Meta_Field_By_ID localMeta m.type_id with
    | none =>
      simp only [hfind]
      rw [hre, hA']
      rw [ih (A ++ metaBytes m) payload obj P
        (fun x hx => hwf x (List.mem_cons_of_mem m hx))
        (by simp [hP, List.length_cons]; omega)]
      simp [decodeStep, hfind]
    | some our =>
      simp only [hfind, hread our.size]
      rw [hre, hA']
      rw [ih (A ++ metaBytes m) payload _ P
        (fun x hx => hwf x (List.mem_cons_of_mem m hx))
        (by simp [hP, List.length_cons]; omega)]
      simp [decodeStep, hfind]

/-- Running the deserializer on a well-formed frame: a stream-id mismatch
returns `STREAM_ID_MISMATCH` with the record untouched, otherwise the loop
runs over exactly the transmitted descriptor list and the payload. -/
theorem Deserialize_frame (stream_id fsid : Nat)
    (localMeta ms : List Serializer_Field_Meta_t) (payload obj : Buffer)
    (hf : fsid < 4294967296) (hn : ms.length < 4294967296)
    (hwf : ∀ m ∈ ms, MetaWF m) :
    Deserialize stream_id localMeta (frameBytes fsid ms payload) obj
      = if fsid = stream_id then
          (Deserializer_Error_t.NONE, decodeList localMeta payload ms obj)
        else (Deserializer_Error_t.STREAM_ID_MISMATCH, obj) := by
  have hsid : read32 (frameBytes fsid ms payload) 0 = fsid := by
    have h0 : frameBytes fsid ms payload
        = [] ++ (le32 fsid ++ (le32 ms.length ++ (metaTableBytes ms ++ payload))) := by
      simp [frameBytes]
    rw [h0]
    exact read32_at [] fsid _ hf
  have hcount : read32 (frameBytes fsid ms payload) 4 = ms.length := by
    have h0 : frameBytes fsid ms payload
        = le32 fsid ++ (le32 ms.length ++ (metaTableBytes ms ++ payload)) := by
      simp [frameBytes]
    have h4 : (4 : Nat) = (le32 fsid).length := rfl
    rw [h0, h4]
    exact read32_at (le32 fsid) ms.length _ hn
  have key : Deserialize_loop localMeta (frameBytes fsid ms payload)
      (8 + 8 * ms.length) 8 ms.length obj = decodeList localMeta payload ms obj := by
    have h0 : frameBytes fsid ms payload
        = (le32 fsid ++ le32 ms.length) ++ (metaTableBytes ms ++ payload) := by
      simp [frameBytes]
    rw [h0]
    exact Deserialize_loop_split localMeta ms (le32 fsid ++ le32 ms.length) payload obj
      (8 + 8 * ms.length) hwf (by simp)
  by_cases heq : fsid = stream_id
  · rw [if_pos heq]
    unfold Deserialize
    rw [hsid, hcount, if_neg (by simp [heq])]
    show (Deserializer_Error_t.NONE,
        Deserialize_loop localMeta (frameBytes fsid ms payload) (8 + 8 * ms.length) 8
          ms.length obj)
      = (Deserializer_Error_t.NONE, decodeList localMeta payload ms obj)
    rw [key]
  · rw [if_neg heq]
    unfold Deserialize
    rw [hsid, if_pos heq]

/-! ### Lookup lemmas -/

theorem Get_Meta_some {meta : List Serializer_Field_Meta_t} {tid : Nat}
    {our : Serializer_Field_Meta_t}
    (h : Serializer_Get_Meta_Field_By_ID meta tid = some our) :
    our.type_id = tid ∧ our ∈ meta := by
  refine ⟨?_, List.mem_of_find?_eq_some h⟩
  have := List.find?_some h
  simpa using this

theorem Get_Meta_none {meta : List Serializer_Field_Meta_t} {tid : Nat}
    (h : ∀ m ∈ meta, m.type_id ≠ tid) :
    Serializer_Get_Meta_Field_By_ID meta tid = none := by
  apply List.find?_eq_none.mpr
  intro m hm
  simpa using h m hm

theorem Get_Meta_self {S : List Serializer_Field_Meta_t} (hu : uniqueIds S) :
    ∀ {f : Serializer_Field_Meta_t}, f ∈ S →
      Serializer_Get_Meta_Field_By_ID S f.type_id = some f := by
  induction S with
  | nil => intro f hf; cases hf
  | cons a S ih =>
    intro f hf
    rcases List.mem_cons.mp hf with rfl | hf'
    · unfold Serializer_Get_Meta_Field_By_ID
      simp [List.find?_cons]
    · have hne : (a.type_id == f.type_id) = false := by
        simpa using (List.pairwise_cons.mp hu).1 f hf'
      unfold Serializer_Get_Meta_Field_By_ID
      rw [List.find?_cons, hne]
      exact ih (List.pairwise_cons.mp hu).2 hf'

/-! ### decodeList lemmas -/

@[simp] theorem decodeStep_length (localMeta : List Serializer_Field_Meta_t)
    (payload obj : Buffer) (rm : Serializer_Field_Meta_t) :
    (decodeStep localMeta payload obj rm).length = obj.length := by
  unfold decodeStep
  cases Serializer_Get_Meta_Field_By_ID localMeta rm.type_id <;> simp

@[simp] theorem decodeList_length (localMeta : List Serializer_Field_Meta_t)
    (payload : Buffer) :
    ∀ (ms : List Serializer_Field_Meta_t) (obj : Buffer),
      (decodeList localMeta payload ms obj).length = obj.length := by
  intro ms
  induction ms with
  | nil => intro obj; rfl
  | cons m ms ih => intro obj; rw [decodeList_cons, ih, decodeStep_length]

theorem readBytes_congr {a b : Buffer} {p q : Nat} (n : Nat)
    (h : ∀ k < n, byteAt a (p + k) = byteAt b (q + k)) :
    readBytes a p n = readBytes b q n := by
  unfold readBytes
  apply List.map_congr_left
  intro j hj
  exact h j (List.mem_range.mp hj)

/-- Decoding a received table where each descriptor looks itself up in the
local table copies the payload to identical positions: afterwards every byte
inside a received field's range holds the payload byte, every other byte is
untouched. -/
theorem decodeList_copy_ident (S : List Serializer_Field_Meta_t) (r : Buffer) :
    ∀ (ts : List Serializer_Field_Meta_t) (obj : Buffer),
      (∀ t ∈ ts, Serializer_Get_Meta_Field_By_ID S t.type_id = some t) →
      (∀ t ∈ ts, t.offset + t.size ≤ obj.length) →
      ∀ j, byteAt (decodeList S r ts obj) j =
        if ∃ t ∈ ts, t.offset ≤ j ∧ j < t.offset + t.size then byteAt r j
        else byteAt obj j := by
  intro ts
  induction ts with
  | nil => intro obj _ _ j; simp
  | cons t ts ih =>
    intro obj hfind hobj j
    rw [decodeList_cons]
    have hstep : decodeStep S r obj t
        = writeBytes obj t.offset (readBytes r t.offset t.size) := by
      unfold decodeStep
      rw [hfind t (List.mem_cons_self t ts)]
    rw [hstep]
    rw [ih _ (fun x hx => hfind x (List.mem_cons_of_mem t hx))
      (fun x hx => by rw [writeBytes_length]; exact hobj x (List.mem_cons_of_mem t hx))]
    by_cases hc : ∃ x ∈ ts, x.offset ≤ j ∧ j < x.offset + x.size
    · rw [if_pos hc, if_pos ?_]
      obtain ⟨x, hx, hxr⟩ := hc
      exact ⟨x, List.mem_cons_of_mem t hx, hxr⟩
    · rw [if_neg hc, byteAt_writeBytes, readBytes_length]
      by_cases hj : t.offset ≤ j ∧ j < t.offset + t.size
      · have hjl : j < obj.length :=
          Nat.lt_of_lt_of_le hj.2 (hobj t (List.mem_cons_self t ts))
        rw [if_pos ⟨hj.1, hj.2, hjl⟩, byteAt_readBytes, if_pos (by omega)]
        rw [if_pos ⟨t, List.mem_cons_self t ts, hj⟩]
        congr 1
        omega
      · rw [if_neg (by intro hcon; exact hj ⟨hcon.1, hcon.2.1⟩)]
        rw [if_neg ?_]
        intro hcon
        obtain ⟨x, hx, hxr⟩ := hcon
        rcases List.mem_cons.mp hx with rfl | hx'
        · exact hj hxr
        · exact hc ⟨x, hx', hxr⟩

/-- Bytes of the payload past position `plen` are never read when every
matched copy stays within the first `plen` payload bytes. -/
theorem decodeList_payload_take (localMeta : List Serializer_Field_Meta_t)
    (p junk : Buffer) :
    ∀ (ts : List Serializer_Field_Meta_t) (obj : Buffer),
      (∀ t ∈ ts, ∀ our,
          Serializer_Get_Meta_Field_By_ID localMeta t.type_id = some our →
          t.offset + our.size ≤ p.length) →
      decodeList localMeta (p ++ junk) ts obj = decodeList localMeta p ts obj := by
  intro ts
  induction ts with
  | nil => intro obj _; rfl
  | cons t ts ih =>
    intro obj hb
    rw [decodeList_cons, decodeList_cons]
    have hstep : decodeStep localMeta (p ++ junk) obj t = decodeStep localMeta p obj t := by
      unfold decodeStep
      cases hfind : Serializer_Get_Meta_Field_By_ID localMeta t.type_id with
      | none => rfl
      | some our =>
        have hbound := hb t (List.mem_cons_self t ts) our hfind
        show writeBytes obj our.offset (readBytes (p ++ junk) t.offset our.size)
          = writeBytes obj our.offset (readBytes p t.offset our.size)
        rw [readBytes_congr our.size]
        intro k hk
        exact byteAt_append_left junk (by omega)
    rw [hstep, ih _ (fun x hx => hb x (List.mem_cons_of_mem t hx))]

/-- Bytes of the output record in a range every matched local field avoids
are untouched by the decode loop (fold form). -/
theorem decodeList_preserves (localMeta : List Serializer_Field_Meta_t)
    (payload : Buffer) (lo hi : Nat) :
    ∀ (ts : List Serializer_Field_Meta_t) (obj : Buffer),
      (∀ rm ∈ ts, ∀ our,
          Serializer_Get_Meta_Field_By_ID localMeta rm.type_id = some our →
          our.offset + our.size ≤ lo ∨ hi ≤ our.offset) →
      ∀ j, lo ≤ j → j < hi →
        byteAt (decodeList localMeta payload ts obj) j = byteAt obj j := by
  intro ts
  induction ts with
  | nil => intro obj _ j _ _; rfl
  | cons t ts ih =>
    intro obj hd j hlo hhi
    rw [decodeList_cons, ih _ (fun x hx => hd x (List.mem_cons_of_mem t hx)) j hlo hhi]
    unfold decodeStep
    cases hfind : Serializer_Get_Meta_Field_By_ID localMeta t.type_id with
    | none => rfl
    | some our =>
      have hrange := hd t (List.mem_cons_self t ts) our hfind
      rw [byteAt_writeBytes, readBytes_length, if_neg (by omega)]

/-- Bytes of the output record in a range every matched local field avoids
are untouched by the decode loop (raw-buffer form). -/
theorem Deserialize_loop_preserves (localMeta : List Serializer_Field_Meta_t)
    (buffer : Buffer) (P lo hi : Nat) :
    ∀ (count pos : Nat) (obj : Buffer),
      (∀ k < count, ∀ our,
          Serializer_Get_Meta_Field_By_ID localMeta
              (readMeta buffer (pos + 8 * k)).type_id = some our →
          our.offset + our.size ≤ lo ∨ hi ≤ our.offset) →
      ∀ j, lo ≤ j → j < hi →
        byteAt (Deserialize_loop localMeta buffer P pos count obj) j = byteAt obj j := by
  intro count
  induction count with
  | zero => intro pos obj _ j _ _; rfl
  | succ c ih =>
    intro pos obj h j hlo hhi
    rw [Deserialize_loop]
    have hshift : ∀ k < c, ∀ our,
        Serializer_Get_Meta_Field_By_ID localMeta
            (readMeta buffer (pos + 8 + 8 * k)).type_id = some our →
        our.offset + our.size ≤ lo ∨ hi ≤ our.offset := by
      intro k hk our hf
      refine h (k + 1) (by omega) our ?_
      rw [show pos + 8 * (k + 1) = pos + 8 + 8 * k by omega]
      exact hf
    cases hfind : Serializer_Get_Meta_Field_By_ID localMeta
        (readMeta buffer pos).type_id with
    | none =>
      simp only [hfind]
      exact ih (pos + 8) obj hshift j hlo hhi
    | some our =>
      simp only [hfind]
      rw [ih (pos + 8) _ hshift j hlo hhi]
      have hrange := h 0 (by omega) our
        (by rw [show pos + 8 * 0 = pos by omega]; exact hfind)
      rw [byteAt_writeBytes, readBytes_length, if_neg (by omega)]

/-- Reading back the range just written. -/
theorem readBytes_writeBytes_self (obj src : Buffer) (off : Nat)
    (h : off + src.length ≤ obj.length) :
    readBytes (writeBytes obj off src) off src.length = src := by
  apply buffer_ext (by simp)
  intro j hj
  rw [byteAt_readBytes, if_pos hj, byteAt_writeBytes,
    if_pos ⟨by omega, by omega, by omega⟩]
  congr 1
  omega

/-! ### Serializer lemmas -/

theorem byteAt_drop (l : Buffer) (n k : Nat) :
    byteAt (l.drop n) k = byteAt l (n + k) := by
  unfold byteAt
  rw [List.getD_eq_getElem?_getD, List.getD_eq_getElem?_getD, List.getElem?_drop]

theorem byteAt_take (l : Buffer) {n j : Nat} (h : j < n) :
    byteAt (l.take n) j = byteAt l j := by
  unfold byteAt
  rw [List.getD_eq_getElem?_getD, List.getD_eq_getElem?_getD,
    List.getElem?_take_of_lt h]

/-- An in-bounds `memcpy` splits the destination into the untouched head,
the copied bytes and the untouched tail. -/
theorem writeBytes_eq (dst : Buffer) (off : Nat) (src : Buffer)
    (h : off + src.length ≤ dst.length) :
    writeBytes dst off src
      = dst.take off ++ (src ++ dst.drop (off + src.length)) := by
  have hR : (dst.take off ++ (src ++ dst.drop (off + src.length))).length
      = dst.length := by
    simp
    omega
  apply buffer_ext (by rw [writeBytes_length, hR])
  intro j hj
  rw [hR] at hj
  rw [byteAt_writeBytes]
  have hto : (dst.take off).length = off := by simp; omega
  by_cases h1 : j < off
  · rw [if_neg (by omega), byteAt_append_left _ (by omega), byteAt_take dst h1]
  · have hsk : byteAt (dst.take off ++ (src ++ dst.drop (off + src.length))) j
        = byteAt (src ++ dst.drop (off + src.length)) (j - off) := by
      conv_lhs => rw [show j = (dst.take off).length + (j - off) by omega]
      rw [byteAt_skip]
    rw [hsk]
    by_cases h2 : j < off + src.length
    · rw [if_pos ⟨by omega, h2, by omega⟩, byteAt_append_left _ (by omega)]
    · rw [if_neg (by omega)]
      have : j - off = src.length + (j - off - src.length) := by omega
      rw [this, byteAt_skip, byteAt_drop]
      congr 1
      omega

@[simp] theorem frameBytes_length (stream_id : Nat)
    (meta : List Serializer_Field_Meta_t) (obj : Buffer) :
    (frameBytes stream_id meta obj).length = 8 + 8 * meta.length + obj.length := by
  simp [frameBytes]
  omega

/-- What one call of the generated serializer does to the caller's buffer:
the first `8 + 8 * n + record_size` bytes become the frame, the rest of the
buffer stays as it was. -/
theorem Serialize_spec (stream_id : Nat) (meta : List Serializer_Field_Meta_t)
    (obj buffer : Buffer)
    (h : 8 + 8 * meta.length + obj.length ≤ buffer.length) :
    Serialize stream_id meta obj buffer
      = frameBytes stream_id meta obj
          ++ buffer.drop (8 + 8 * meta.length + obj.length) := by
  have e1 : writeBytes buffer 0 (le32 stream_id) = le32 stream_id ++ buffer.drop 4 := by
    rw [writeBytes_eq buffer 0 (le32 stream_id) (by simp; omega)]
    simp
  have hl1 : (le32 stream_id ++ buffer.drop 4).length = buffer.length := by
    simp
    omega
  have e2 : writeBytes (le32 stream_id ++ buffer.drop 4) 4 (le32 meta.length)
      = le32 stream_id ++ (le32 meta.length ++ buffer.drop 8) := by
    rw [writeBytes_eq _ 4 (le32 meta.length) (by rw [hl1]; simp; omega)]
    have ht : (le32 stream_id ++ buffer.drop 4).take 4 = le32 stream_id :=
      List.take_left' (by simp)
    have hd : (le32 stream_id ++ buffer.drop 4).drop 8
        = buffer.drop 8 := by
      conv_lhs => rw [show (8 : Nat) = (le32 stream_id).length + 4 from rfl]
      rw [List.drop_append, List.drop_drop]
    rw [show (4 : Nat) + (le32 meta.length).length = 8 from rfl, ht, hd]
  have hl2 : (le32 stream_id ++ (le32 meta.length ++ buffer.drop 8)).length
      = buffer.length := by
    simp
    omega
  have e3 : writeBytes (le32 stream_id ++ (le32 meta.length ++ buffer.drop 8)) 8
        (metaTableBytes meta)
      = le32 stream_id ++ (le32 meta.length
          ++ (metaTableBytes meta ++ buffer.drop (8 + 8 * meta.length))) := by
    rw [writeBytes_eq _ 8 (metaTableBytes meta) (by rw [hl2]; simp; omega)]
    have hass : le32 stream_id ++ (le32 meta.length ++ buffer.drop 8)
        = (le32 stream_id ++ le32 meta.length) ++ buffer.drop 8 := by
      simp [List.append_assoc]
    have ht : (le32 stream_id ++ (le32 meta.length ++ buffer.drop 8)).take 8
        = le32 stream_id ++ le32 meta.length := by
      rw [hass]
      exact List.take_left' (by simp)
    have hd : (le32 stream_id ++ (le32 meta.length ++ buffer.drop 8)).drop
          (8 + (metaTableBytes meta).length)
        = buffer.drop (8 + 8 * meta.length) := by
      conv_lhs => rw [hass, show 8 + (metaTableBytes meta).length
          = (le32 stream_id ++ le32 meta.length).length + (metaTableBytes meta).length
          by simp]
      rw [List.drop_append, List.drop_drop, metaTableBytes_length]
    rw [ht, hd]
    simp [List.append_assoc]
  have hl3 : (le32 stream_id ++ (le32 meta.length
      ++ (metaTableBytes meta ++ buffer.drop (8 + 8 * meta.length)))).length
      = buffer.length := by
    simp
    omega
  have e4 : writeBytes (le32 stream_id ++ (le32 meta.length
        ++ (metaTableBytes meta ++ buffer.drop (8 + 8 * meta.length))))
        (8 + 8 * meta.length) obj
      = le32 stream_id ++ (le32 meta.length ++ (metaTableBytes meta
          ++ (obj ++ buffer.drop (8 + 8 * meta.length + obj.length)))) := by
    rw [writeBytes_eq _ (8 + 8 * meta.length) obj (by rw [hl3]; omega)]
    have hass : le32 stream_id ++ (le32 meta.length
          ++ (metaTableBytes meta ++ buffer.drop (8 + 8 * meta.length)))
        = ((le32 stream_id ++ le32 meta.length) ++ metaTableBytes meta)
            ++ buffer.drop (8 + 8 * meta.length) := by
      simp [List.append_assoc]
    have hpre : ((le32 stream_id ++ le32 meta.length) ++ metaTableBytes meta).length
        = 8 + 8 * meta.length := by
      simp
      omega
    have ht : (le32 stream_id ++ (le32 meta.length
          ++ (metaTableBytes meta ++ buffer.drop (8 + 8 * meta.length)))).take
          (8 + 8 * meta.length)
        = (le32 stream_id ++ le32 meta.length) ++ metaTableBytes meta := by
      rw [hass]
      exact List.take_left' hpre
    have hd : (le32 stream_id ++ (le32 meta.length
          ++ (metaTableBytes meta ++ buffer.drop (8 + 8 * meta.length)))).drop
          (8 + 8 * meta.length + obj.length)
        = buffer.drop (8 + 8 * meta.length + obj.length) := by
      conv_lhs => rw [hass, show 8 + 8 * meta.length + obj.length
          = ((le32 stream_id ++ le32 meta.length) ++ metaTableBytes meta).length
            + obj.length by rw [hpre]]
      rw [List.drop_append, List.drop_drop]
    rw [ht, hd]
    simp [List.append_assoc]
  show writeBytes (writeBytes (writeBytes (writeBytes buffer 0 (le32 stream_id)) 4
      (le32 meta.length)) 8 (metaTableBytes meta)) (8 + 8 * meta.length) obj = _
  rw [e1, e2, e3, e4]
  simp [frameBytes, List.append_assoc]

/-! ### Claim theorems -/

/-- Claim C3: whenever the first four bytes of the frame do not decode to the
caller's expected stream id, `Deserialize` returns `STREAM_ID_MISMATCH` and
hands back the output record exactly as it was on entry — the stream-id check
happens before any write to the record. -/
theorem C3_stream_id_mismatch_untouched (stream_id : Nat)
    (localMeta : List Serializer_Field_Meta_t) (buffer obj : Buffer)
    (h : read32 buffer 0 ≠ stream_id) :
    Deserialize stream_id localMeta buffer obj
      = (Deserializer_Error_t.STREAM_ID_MISMATCH, obj) := by
  unfold Deserialize
  rw [if_pos h]

/-- Witness for C3 at a concrete corrupted frame. -/
theorem C3_witness :
    Deserialize 1 [⟨1, 0, 1⟩] [2, 0, 0, 0, 0, 0, 0, 0, 42] [9]
      = (Deserializer_Error_t.STREAM_ID_MISMATCH, [9]) :=
  C3_stream_id_mismatch_untouched 1 [⟨1, 0, 1⟩] [2, 0, 0, 0, 0, 0, 0, 0, 42] [9]
    (by decide)

/-- Claim C6: `Serialize` writes, in order, the little-endian 4-byte stream
id, the little-endian 4-byte field count (the schema's length), each schema
descriptor verbatim in declared order at 8 bytes apiece, then the record's
full byte image, leaving the rest of the destination as it was. -/
theorem C6_encode_layout (stream_id : Nat) (meta : List Serializer_Field_Meta_t)
    (obj buffer : Buffer)
    (hbuf : 8 + 8 * meta.length + obj.length ≤ buffer.length) :
    Serialize stream_id meta obj buffer
      = le32 stream_id ++ le32 meta.length ++ (meta.map metaBytes).flatten ++ obj
          ++ buffer.drop (8 + 8 * meta.length + obj.length) ∧
    ∀ m ∈ meta, (metaBytes m).length = 8 := by
  refine ⟨?_, fun m _ => metaBytes_length m⟩
  rw [Serialize_spec stream_id meta obj buffer hbuf]
  simp [frameBytes, metaTableBytes, List.append_assoc]

/-- Witness for C6 at a concrete record and schema. -/
theorem C6_witness :
    Serialize 1 [⟨1, 0, 1⟩] [42] (List.replicate 17 0)
      = le32 1 ++ le32 1 ++ ([⟨1, 0, 1⟩].map metaBytes).flatten ++ [42]
          ++ (List.replicate 17 0).drop 17 :=
  (C6_encode_layout 1 [⟨1, 0, 1⟩] [42] (List.replicate 17 0) (by decide)).1

/-- Claim C9: `Serialize` writes exactly the first `8 + 8*field_count +
record_size` bytes of the destination (it keeps the destination's length and
the suffix beyond the frame untouched) and reads nothing from the
destination's prior contents (the frame prefix is the same for every
destination buffer). -/
theorem C9_encode_frame_effect (stream_id : Nat) (meta : List Serializer_Field_Meta_t)
    (obj buffer : Buffer)
    (hbuf : 8 + 8 * meta.length + obj.length ≤ buffer.length) :
    (Serialize stream_id meta obj buffer).length = buffer.length ∧
    (Serialize stream_id meta obj buffer).drop (8 + 8 * meta.length + obj.length)
      = buffer.drop (8 + 8 * meta.length + obj.length) ∧
    ∀ buffer2 : Buffer, 8 + 8 * meta.length + obj.length ≤ buffer2.length →
      (Serialize stream_id meta obj buffer2).take (8 + 8 * meta.length + obj.length)
        = (Serialize stream_id meta obj buffer).take (8 + 8 * meta.length + obj.length) := by
  have hs := Serialize_spec stream_id meta obj buffer hbuf
  refine ⟨by simp [Serialize], ?_, ?_⟩
  · rw [hs, List.drop_left' (frameBytes_length stream_id meta obj)]
  · intro buffer2 h2
    rw [hs, Serialize_spec stream_id meta obj buffer2 h2,
      List.take_left' (frameBytes_length stream_id meta obj),
      List.take_left' (frameBytes_length stream_id meta obj)]

/-- Witness for C9 at a concrete buffer. -/
theorem C9_witness :
    (Serialize 1 [⟨1, 0, 1⟩] [42] (List.replicate 20 7)).length
      = (List.replicate 20 7 : Buffer).length :=
  (C9_encode_frame_effect 1 [⟨1, 0, 1⟩] [42] (List.replicate 20 7) (by decide)).1

/-- Claim C1: encoding a record `r` that conforms to schema `S` (valid,
unique-id descriptors that stay inside and jointly cover the record) with
stream id `id` into a large-enough buffer, then decoding with the same `S`
and `id`, returns `NONE` and an output record equal to `r`. -/
theorem C1_roundtrip (stream_id : Nat) (S : List Serializer_Field_Meta_t)
    (r obj buffer : Buffer)
    (hsid : stream_id < 4294967296) (hn : S.length < 4294967296)
    (hwf : ∀ m ∈ S, MetaWF m) (huniq : uniqueIds S)
    (hbounds : ∀ f ∈ S, f.offset + f.size ≤ r.length)
    (hcover : ∀ j < r.length, ∃ f ∈ S, f.offset ≤ j ∧ j < f.offset + f.size)
    (hobj : obj.length = r.length)
    (hbuf : 8 + 8 * S.length + r.length ≤ buffer.length) :
    Deserialize stream_id S (Serialize stream_id S r buffer) obj
      = (Deserializer_Error_t.NONE, r) := by
  rw [Serialize_spec stream_id S r buffer hbuf]
  rw [show frameBytes stream_id S r ++ buffer.drop (8 + 8 * S.length + r.length)
      = frameBytes stream_id S (r ++ buffer.drop (8 + 8 * S.length + r.length)) by
    simp [frameBytes, List.append_assoc]]
  rw [Deserialize_frame stream_id stream_id S S _ obj hsid hn hwf, if_pos rfl]
  have hfind : ∀ t ∈ S, Serializer_Get_Meta_Field_By_ID S t.type_id = some t :=
    fun t ht => Get_Meta_self huniq ht
  have hb : ∀ t ∈ S, ∀ our, Serializer_Get_Meta_Field_By_ID S t.type_id = some our →
      t.offset + our.size ≤ r.length := by
    intro t ht our hf
    rw [hfind t ht] at hf
    cases hf
    exact hbounds t ht
  rw [decodeList_payload_take S r _ S obj hb]
  have hres : decodeList S r S obj = r := by
    apply buffer_ext
    · rw [decodeList_length, hobj]
    · intro j hj
      rw [decodeList_copy_ident S r S obj hfind
        (fun t ht => hobj ▸ hbounds t ht) j]
      rw [if_pos (hcover j hj)]
  rw [hres]

/-- Witness for C1 at a concrete one-field schema. -/
theorem C1_witness :
    Deserialize 1 [⟨1, 0, 1⟩] (Serialize 1 [⟨1, 0, 1⟩] [42] (List.replicate 17 0)) [0]
      = (Deserializer_Error_t.NONE, [42]) :=
  C1_roundtrip 1 [⟨1, 0, 1⟩] [42] [0] (List.replicate 17 0) (by decide) (by decide)
    (by decide) (by decide) (by decide) (by decide) (by decide) (by decide)

/-- Claim C4: in a decode call that passes the stream-id check (and hence
returns `NONE`), a local field `F` whose id appears in none of the received
descriptors keeps, over `[F.offset, F.offset + F.size)`, exactly the bytes
the output record held on entry; nothing is zero-filled.  Local fields with
other ids must not overlap `F`, which holds for any table generated from
distinct struct members. -/
theorem C4_unmatched_local_field_untouched (stream_id : Nat)
    (localMeta : List Serializer_Field_Meta_t) (buffer obj : Buffer)
    (F : Serializer_Field_Meta_t) (hF : F ∈ localMeta)
    (hmatch : read32 buffer 0 = stream_id)
    (hids : ∀ i < read32 buffer 4,
        (readMeta buffer (8 + 8 * i)).type_id ≠ F.type_id)
    (hdisj : ∀ d ∈ localMeta, d.type_id ≠ F.type_id → rangeDisjoint d F) :
    (Deserialize stream_id localMeta buffer obj).1 = Deserializer_Error_t.NONE ∧
    readBytes (Deserialize stream_id localMeta buffer obj).2 F.offset F.size
      = readBytes obj F.offset F.size := by
  have h1 : Deserialize stream_id localMeta buffer obj
      = (Deserializer_Error_t.NONE,
          Deserialize_loop localMeta buffer (8 + 8 * read32 buffer 4) 8
            (read32 buffer 4) obj) := by
    unfold Deserialize
    rw [hmatch, if_neg (by simp)]
  rw [h1]
  refine ⟨rfl, ?_⟩
  apply readBytes_congr
  intro k hk
  refine Deserialize_loop_preserves localMeta buffer (8 + 8 * read32 buffer 4)
    F.offset (F.offset + F.size) (read32 buffer 4) 8 obj ?_ (F.offset + k)
    (by omega) (by omega)
  intro i hi our hf
  obtain ⟨htid, hmem⟩ := Get_Meta_some hf
  have hne : our.type_id ≠ F.type_id := by
    rw [htid]
    exact hids i hi
  have hrd := hdisj our hmem hne
  unfold rangeDisjoint at hrd
  omega

/-- Witness for C4: a frame carrying only id 1 leaves the id-2 field's bytes
of the output record alone. -/
theorem C4_witness :
    (Deserialize 3 [⟨1, 0, 2⟩, ⟨2, 2, 2⟩]
        [3, 0, 0, 0, 1, 0, 0, 0, 1, 0, 0, 0, 0, 0, 2, 0, 7, 8] [9, 9, 5, 5]).1
      = Deserializer_Error_t.NONE ∧
    readBytes (Deserialize 3 [⟨1, 0, 2⟩, ⟨2, 2, 2⟩]
        [3, 0, 0, 0, 1, 0, 0, 0, 1, 0, 0, 0, 0, 0, 2, 0, 7, 8] [9, 9, 5, 5]).2 2 2
      = readBytes [9, 9, 5, 5] 2 2 :=
  C4_unmatched_local_field_untouched 3 [⟨1, 0, 2⟩, ⟨2, 2, 2⟩]
    [3, 0, 0, 0, 1, 0, 0, 0, 1, 0, 0, 0, 0, 0, 2, 0, 7, 8] [9, 9, 5, 5]
    ⟨2, 2, 2⟩ (by decide) (by decide) (by decide) (by decide)

/-- Claim C5: a received descriptor whose id matches nothing in the local
schema is skipped without error and without any write; decoding a frame
encoded with the superset schema `S1 ++ [g]` (the extra field `g` carrying a
fresh id) with local schema `S1` returns `NONE`, reproduces every `S1`
field's bytes from the encoder's record, and leaves every byte outside the
`S1` fields as it was on entry. -/
theorem C5_forward_compat (stream_id : Nat) (S1 : List Serializer_Field_Meta_t)
    (g : Serializer_Field_Meta_t) (r2 obj : Buffer)
    (hsid : stream_id < 4294967296) (hn : S1.length + 1 < 4294967296)
    (hwf : ∀ m ∈ S1, MetaWF m) (hwfg : MetaWF g)
    (huniq : uniqueIds S1)
    (hg : ∀ f ∈ S1, f.type_id ≠ g.type_id)
    (hr : ∀ f ∈ S1, f.offset + f.size ≤ r2.length)
    (hobj : ∀ f ∈ S1, f.offset + f.size ≤ obj.length) :
    (Deserialize stream_id S1 (frameBytes stream_id (S1 ++ [g]) r2) obj).1
        = Deserializer_Error_t.NONE ∧
    (∀ f ∈ S1,
      readBytes (Deserialize stream_id S1
          (frameBytes stream_id (S1 ++ [g]) r2) obj).2 f.offset f.size
        = readBytes r2 f.offset f.size) ∧
    (∀ j, (∀ f ∈ S1, ¬(f.offset ≤ j ∧ j < f.offset + f.size)) →
      byteAt (Deserialize stream_id S1
          (frameBytes stream_id (S1 ++ [g]) r2) obj).2 j = byteAt obj j) := by
  have hwfall : ∀ m ∈ S1 ++ [g], MetaWF m := by
    intro m hm
    rcases List.mem_append.mp hm with hmem | hmem
    · exact hwf m hmem
    · rw [List.mem_singleton] at hmem
      rw [hmem]
      exact hwfg
  have hframe := Deserialize_frame stream_id stream_id S1 (S1 ++ [g]) r2 obj hsid
    (by simp; omega) hwfall
  rw [if_pos rfl] at hframe
  rw [hframe]
  have hgnone : Serializer_Get_Meta_Field_By_ID S1 g.type_id = none :=
    Get_Meta_none (fun m hm => hg m hm)
  have hsplit : decodeList S1 r2 (S1 ++ [g]) obj = decodeList S1 r2 S1 obj := by
    unfold decodeList
    rw [List.foldl_append]
    show decodeStep S1 r2 (List.foldl (decodeStep S1 r2) obj S1) g = _
    unfold decodeStep
    rw [hgnone]
  rw [hsplit]
  have hfind : ∀ t ∈ S1, Serializer_Get_Meta_Field_By_ID S1 t.type_id = some t :=
    fun t ht => Get_Meta_self huniq ht
  have hpoint := decodeList_copy_ident S1 r2 S1 obj hfind hobj
  refine ⟨rfl, ?_, ?_⟩
  · intro f hf
    apply readBytes_congr
    intro k hk
    rw [hpoint (f.offset + k), if_pos ⟨f, hf, by omega, by omega⟩]
  · intro j hnone
    rw [hpoint j, if_neg ?_]
    intro hc
    obtain ⟨x, hx, hxr⟩ := hc
    exact hnone x hx hxr

/-- Witness for C5: one extra field with id 2 is ignored, field id 1 decodes. -/
theorem C5_witness :
    readBytes (Deserialize 5 [⟨1, 0, 1⟩]
        (frameBytes 5 ([⟨1, 0, 1⟩] ++ [⟨2, 1, 1⟩]) [42, 99]) [0]).2 0 1
      = readBytes [42, 99] 0 1 :=
  ((C5_forward_compat 5 [⟨1, 0, 1⟩] ⟨2, 1, 1⟩ [42, 99] [0] (by decide) (by decide)
      (by decide) (by decide) (by decide) (by decide) (by decide)
      (by decide)).2.1) ⟨1, 0, 1⟩ (by decide)

/-- Two in-bounds writes to disjoint ranges commute. -/
theorem writeBytes_comm (z : Buffer) (o1 : Nat) (s1 : Buffer) (o2 : Nat) (s2 : Buffer)
    (hd : o1 + s1.length ≤ o2 ∨ o2 + s2.length ≤ o1) :
    writeBytes (writeBytes z o1 s1) o2 s2 = writeBytes (writeBytes z o2 s2) o1 s1 := by
  apply buffer_ext (by simp)
  intro j hj
  rw [byteAt_writeBytes, byteAt_writeBytes, byteAt_writeBytes, byteAt_writeBytes]
  simp only [writeBytes_length]
  split_ifs <;> first | rfl | omega

/-- Two iterations of the decode loop for received descriptors with distinct
ids commute, provided local fields with distinct ids occupy disjoint ranges. -/
theorem decodeStep_comm (localMeta : List Serializer_Field_Meta_t) (payload : Buffer)
    (z : Buffer) (x y : Serializer_Field_Meta_t) (hne : x.type_id ≠ y.type_id)
    (hdisj : ∀ d1 ∈ localMeta, ∀ d2 ∈ localMeta,
        d1.type_id ≠ d2.type_id → rangeDisjoint d1 d2) :
    decodeStep localMeta payload (decodeStep localMeta payload z x) y
      = decodeStep localMeta payload (decodeStep localMeta payload z y) x := by
  cases hfx : Serializer_Get_Meta_Field_By_ID localMeta x.type_id with
  | none =>
    cases hfy : Serializer_Get_Meta_Field_By_ID localMeta y.type_id with
    | none => simp only [decodeStep, hfx, hfy]
    | some oy => simp only [decodeStep, hfx, hfy]
  | some ox =>
    cases hfy : Serializer_Get_Meta_Field_By_ID localMeta y.type_id with
    | none => simp only [decodeStep, hfx, hfy]
    | some oy =>
      simp only [decodeStep, hfx, hfy]
      obtain ⟨hxt, hxm⟩ := Get_Meta_some hfx
      obtain ⟨hyt, hym⟩ := Get_Meta_some hfy
      have hneo : ox.type_id ≠ oy.type_id := by
        rw [hxt, hyt]
        exact hne
      have hrd := hdisj ox hxm oy hym hneo
      unfold rangeDisjoint at hrd
      exact writeBytes_comm z ox.offset _ oy.offset _ (by simp; omega)

/-- Claim C7: for a frame whose descriptor ids are pairwise distinct (as any
encoder-produced frame's are) and a local schema whose distinct-id fields
occupy disjoint ranges, permuting the on-wire order of the meta-table entries
(payload untouched) gives an identical decode result: same error, same final
record. -/
theorem C7_order_independence (stream_id fsid : Nat)
    (localMeta ms ms2 : List Serializer_Field_Meta_t) (payload obj : Buffer)
    (hperm : ms.Perm ms2)
    (hfsid : fsid < 4294967296) (hn : ms.length < 4294967296)
    (hwf : ∀ m ∈ ms, MetaWF m)
    (huniq : uniqueIds ms)
    (hdisj : ∀ d1 ∈ localMeta, ∀ d2 ∈ localMeta,
        d1.type_id ≠ d2.type_id → rangeDisjoint d1 d2) :
    Deserialize stream_id localMeta (frameBytes fsid ms payload) obj
      = Deserialize stream_id localMeta (frameBytes fsid ms2 payload) obj := by
  have hlen : ms2.length = ms.length := hperm.length_eq.symm
  have hwf2 : ∀ m ∈ ms2, MetaWF m := fun m hm => hwf m (hperm.mem_iff.mpr hm)
  rw [Deserialize_frame stream_id fsid localMeta ms payload obj hfsid hn hwf,
    Deserialize_frame stream_id fsid localMeta ms2 payload obj hfsid
      (by rw [hlen]; exact hn) hwf2]
  by_cases heq : fsid = stream_id
  · rw [if_pos heq, if_pos heq]
    have hfold : decodeList localMeta payload ms obj
        = decodeList localMeta payload ms2 obj := by
      unfold decodeList
      refine hperm.foldl_eq' ?_ obj
      intro x hx y hy z
      by_cases hxy : x = y
      · rw [hxy]
      · have hsymm : Symmetric
            (fun a b : Serializer_Field_Meta_t => a.type_id ≠ b.type_id) :=
          fun a b h => h.symm
        have hne : x.type_id ≠ y.type_id :=
          List.Pairwise.forall hsymm huniq hx hy hxy
        exact decodeStep_comm localMeta payload z x y hne hdisj
    rw [hfold]
  · rw [if_neg heq, if_neg heq]

/-- Witness for C7: swapping the two meta entries of a two-field frame. -/
theorem C7_witness :
    Deserialize 5 [⟨1, 0, 1⟩, ⟨2, 1, 1⟩]
        (frameBytes 5 [⟨1, 0, 1⟩, ⟨2, 1, 1⟩] [42, 99]) [0, 0]
      = Deserialize 5 [⟨1, 0, 1⟩, ⟨2, 1, 1⟩]
        (frameBytes 5 [⟨2, 1, 1⟩, ⟨1, 0, 1⟩] [42, 99]) [0, 0] :=
  C7_order_independence 5 5 [⟨1, 0, 1⟩, ⟨2, 1, 1⟩] [⟨1, 0, 1⟩, ⟨2, 1, 1⟩]
    [⟨2, 1, 1⟩, ⟨1, 0, 1⟩] [42, 99] [0, 0] (by decide) (by decide) (by decide)
    (by decide) (by decide) (by decide)

/-- Claim C10: received descriptors are processed in transmission order, so
when an id occurs more than once the copy of a later occurrence lands on top
of earlier ones: after decoding `msA ++ rm :: msB` where no descriptor of
`msB` carries `rm`'s id, the matched local field holds exactly the bytes the
code reads for `rm` (the `our.size` payload bytes at `rm.offset`). -/
theorem C10_last_occurrence_wins (stream_id : Nat)
    (localMeta msA msB : List Serializer_Field_Meta_t)
    (rm our : Serializer_Field_Meta_t) (payload obj : Buffer)
    (hsid : stream_id < 4294967296)
    (hn : (msA ++ rm :: msB).length < 4294967296)
    (hwf : ∀ m ∈ msA ++ rm :: msB, MetaWF m)
    (hfind : Serializer_Get_Meta_Field_By_ID localMeta rm.type_id = some our)
    (hlast : ∀ x ∈ msB, x.type_id ≠ rm.type_id)
    (hdisj : ∀ d1 ∈ localMeta, ∀ d2 ∈ localMeta,
        d1.type_id ≠ d2.type_id → rangeDisjoint d1 d2)
    (hbound : our.offset + our.size ≤ obj.length) :
    (Deserialize stream_id localMeta
        (frameBytes stream_id (msA ++ rm :: msB) payload) obj).1
      = Deserializer_Error_t.NONE ∧
    readBytes (Deserialize stream_id localMeta
        (frameBytes stream_id (msA ++ rm :: msB) payload) obj).2
        our.offset our.size
      = readBytes payload rm.offset our.size := by
  have hframe := Deserialize_frame stream_id stream_id localMeta (msA ++ rm :: msB)
    payload obj hsid hn hwf
  rw [if_pos rfl] at hframe
  rw [hframe]
  refine ⟨rfl, ?_⟩
  have hsplit : decodeList localMeta payload (msA ++ rm :: msB) obj
      = decodeList localMeta payload msB
          (decodeStep localMeta payload (decodeList localMeta payload msA obj) rm) := by
    unfold decodeList
    rw [List.foldl_append]
    rfl
  rw [hsplit]
  have hstep : decodeStep localMeta payload (decodeList localMeta payload msA obj) rm
      = writeBytes (decodeList localMeta payload msA obj) our.offset
          (readBytes payload rm.offset our.size) := by
    unfold decodeStep
    rw [hfind]
  rw [hstep]
  have hlenA : (decodeList localMeta payload msA obj).length = obj.length :=
    decodeList_length localMeta payload msA obj
  have hb : ∀ x ∈ msB, ∀ ourx,
      Serializer_Get_Meta_Field_By_ID localMeta x.type_id = some ourx →
      ourx.offset + ourx.size ≤ our.offset ∨ our.offset + our.size ≤ ourx.offset := by
    intro x hx ourx hfx
    obtain ⟨hxt, hxm⟩ := Get_Meta_some hfx
    obtain ⟨ht, hm⟩ := Get_Meta_some hfind
    have hne : ourx.type_id ≠ our.type_id := by
      rw [hxt, ht]
      exact hlast x hx
    have hrd := hdisj ourx hxm our hm hne
    unfold rangeDisjoint at hrd
    exact hrd
  have hkeep : readBytes (decodeList localMeta payload msB
        (writeBytes (decodeList localMeta payload msA obj) our.offset
          (readBytes payload rm.offset our.size))) our.offset our.size
      = readBytes (writeBytes (decodeList localMeta payload msA obj) our.offset
          (readBytes payload rm.offset our.size)) our.offset our.size := by
    apply readBytes_congr
    intro k hk
    exact decodeList_preserves localMeta payload our.offset (our.offset + our.size)
      msB _ hb (our.offset + k) (by omega) (by omega)
  rw [hkeep]
  have := readBytes_writeBytes_self (decodeList localMeta payload msA obj)
    (readBytes payload rm.offset our.size) our.offset
    (by rw [readBytes_length, hlenA]; exact hbound)
  rw [readBytes_length] at this
  exact this

/-- Witness for C10: id 1 transmitted twice; the second copy (payload bytes
at offset 2) is what the field finally holds. -/
theorem C10_witness :
    readBytes (Deserialize 9 [⟨1, 0, 2⟩]
        (frameBytes 9 ([⟨1, 0, 2⟩] ++ ⟨1, 2, 2⟩ :: [⟨5, 0, 1⟩]) [10, 11, 12, 13])
        [0, 0]).2 0 2
      = readBytes [10, 11, 12, 13] 2 2 :=
  (C10_last_occurrence_wins 9 [⟨1, 0, 2⟩] [⟨1, 0, 2⟩] [⟨5, 0, 1⟩] ⟨1, 2, 2⟩ ⟨1, 0, 2⟩
    [10, 11, 12, 13] [0, 0] (by decide) (by decide) (by decide) (by decide)
    (by decide) (by decide) (by decide)).2

/-- Claim C2 is violated by the code.  At this frame the local field is
declared 4 bytes wide while the received descriptor declares 2 bytes; the
deserializer's copy is `memcpy(obj + our.offset, payload + received.offset,
our.size)`, i.e. 4 bytes, not `min(received.size, local.size) = 2`.  So the
output record's bytes 2 and 3 become `204, 221` — bytes that lie beyond the
received field's declared 2-byte extent (and beyond the 2-byte payload) —
where the claimed `min` policy would have left them at their entry value 9. -/
theorem C2_copy_length_is_local_size :
    Deserialize 7 [⟨1, 0, 4⟩]
        [7, 0, 0, 0, 1, 0, 0, 0, 1, 0, 0, 0, 0, 0, 2, 0, 170, 187, 204, 221]
        [9, 9, 9, 9]
      = (Deserializer_Error_t.NONE, [170, 187, 204, 221]) := by
  decide

/-! ### Schema construction (claim C8) -/

/-- The schema-build failures named by the spec. -/
inductive Schema_Build_Error_t where
  | DuplicateFieldId
  | DescriptorOutOfBounds
deriving DecidableEq, Repr

/-- Modelled from the spec: a helper of the §4.1 schema builder, detecting
two descriptors sharing an id.  No such check exists in `src/Serializer.h`,
whose `SERIALIZER_CREATE_META_IMPL` emits the descriptor array with no
validation at all. -/
def hasDuplicateId : List Serializer_Field_Meta_t → Bool
  | [] => false
  | m :: rest => rest.any (fun x => x.type_id == m.type_id) || hasDuplicateId rest

/-- Modelled from the spec: the §4.1 `build(descriptors) -> Schema` routine,
absent from `src/Serializer.h` (the header builds the table as a bare
constant array and declares no `DuplicateFieldId` or `DescriptorOutOfBounds`
errors).  Per the spec it rejects duplicate ids, rejects any descriptor with
`offset + size` beyond the declared record size, and otherwise returns the
immutable descriptor list — which `Serialize`/`Deserialize` then consume
directly, with no re-validation. -/
def build (descs : List Serializer_Field_Meta_t) (record_size : Nat) :
    Except Schema_Build_Error_t (List Serializer_Field_Meta_t) :=
  if hasDuplicateId descs then Except.error Schema_Build_Error_t.DuplicateFieldId
  else if descs.any (fun f => decide (record_size < f.offset + f.size)) then
    Except.error Schema_Build_Error_t.DescriptorOutOfBounds
  else Except.ok descs

theorem hasDuplicateId_eq_false_iff (l : List Serializer_Field_Meta_t) :
    hasDuplicateId l = false ↔ uniqueIds l := by
  induction l with
  | nil =>
    constructor
    · intro _
      exact List.Pairwise.nil
    · intro _
      rfl
  | cons m rest ih =>
    have hstep : hasDuplicateId (m :: rest)
        = (rest.any (fun x => x.type_id == m.type_id) || hasDuplicateId rest) := rfl
    rw [hstep, Bool.or_eq_false_iff, ih]
    unfold uniqueIds
    rw [List.pairwise_cons]
    rw [List.any_eq_false]
    constructor
    · rintro ⟨h1, h2⟩
      refine ⟨?_, h2⟩
      intro b hb
      have := h1 b hb
      simp at this
      exact fun hc => this hc.symm
    · rintro ⟨h1, h2⟩
      refine ⟨?_, h2⟩
      intro b hb
      simp
      exact fun hc => (h1 b hb) hc.symm

/-- Claim C8: schema construction (as the spec defines it; the header has no
validating builder, see `build`) fails with `DuplicateFieldId` exactly when
two descriptors share an id, fails with `DescriptorOutOfBounds` exactly when
ids are unique but some descriptor's `offset + size` exceeds the record
size, and otherwise hands the descriptor list through unchanged — encode and
decode never repeat these checks: they take the list as-is, and decoding can
only ever end in `NONE` or `STREAM_ID_MISMATCH`. -/
theorem C8_build_time_validation (descs : List Serializer_Field_Meta_t)
    (record_size : Nat) :
    (build descs record_size
        = Except.error Schema_Build_Error_t.DuplicateFieldId ↔ ¬ uniqueIds descs) ∧
    (build descs record_size
        = Except.error Schema_Build_Error_t.DescriptorOutOfBounds ↔
      uniqueIds descs ∧ ∃ f ∈ descs, record_size < f.offset + f.size) ∧
    (∀ s, build descs record_size = Except.ok s →
      s = descs ∧ uniqueIds descs ∧ ∀ f ∈ descs, f.offset + f.size ≤ record_size) ∧
    (∀ sid localMeta buffer obj,
      (Deserialize sid localMeta buffer obj).1 = Deserializer_Error_t.NONE ∨
      (Deserialize sid localMeta buffer obj).1
        = Deserializer_Error_t.STREAM_ID_MISMATCH) := by
  have hlast : ∀ (sid : Nat) (localMeta : List Serializer_Field_Meta_t)
      (buffer obj : Buffer),
      (Deserialize sid localMeta buffer obj).1 = Deserializer_Error_t.NONE ∨
      (Deserialize sid localMeta buffer obj).1
        = Deserializer_Error_t.STREAM_ID_MISMATCH := by
    intro sid localMeta buffer obj
    unfold Deserialize
    by_cases h : read32 buffer 0 ≠ sid
    · rw [if_pos h]
      right
      rfl
    · rw [if_neg h]
      left
      rfl
  cases hdup : hasDuplicateId descs with
  | true =>
    have hnu : ¬ uniqueIds descs := by
      intro hu
      rw [← hasDuplicateId_eq_false_iff] at hu
      rw [hdup] at hu
      cases hu
    refine ⟨⟨fun _ => hnu, fun _ => ?_⟩, ⟨fun hc => ?_, fun hc => absurd hc.1 hnu⟩,
      fun s hs => ?_, hlast⟩
    · unfold build
      rw [hdup, if_pos rfl]
    · unfold build at hc
      rw [hdup, if_pos rfl] at hc
      cases hc
    · unfold build at hs
      rw [hdup, if_pos rfl] at hs
      cases hs
  | false =>
    have hu : uniqueIds descs := (hasDuplicateId_eq_false_iff descs).mp hdup
    have hbuild : build descs record_size
        = if descs.any (fun f => decide (record_size < f.offset + f.size)) then
            Except.error Schema_Build_Error_t.DescriptorOutOfBounds
          else Except.ok descs := by
      unfold build
      rw [hdup]
      rw [if_neg (by simp)]
    cases hoob : descs.any (fun f => decide (record_size < f.offset + f.size)) with
    | true =>
      rw [hbuild, hoob, if_pos rfl]
      have hex : ∃ f ∈ descs, record_size < f.offset + f.size := by
        have := List.any_eq_true.mp hoob
        obtain ⟨f, hf, hp⟩ := this
        exact ⟨f, hf, of_decide_eq_true hp⟩
      refine ⟨⟨fun hc => ?_, fun hc => absurd hu hc⟩, ⟨fun _ => ⟨hu, hex⟩, fun _ => rfl⟩,
        fun s hs => ?_, hlast⟩
      · cases hc
      · cases hs
    | false =>
      rw [hbuild, hoob, if_neg (by simp)]
      have hbnd : ∀ f ∈ descs, f.offset + f.size ≤ record_size := by
        intro f hf
        have := List.any_eq_false.mp hoob f hf
        simp at this
        omega
      refine ⟨⟨fun hc => ?_, fun hc => absurd hu hc⟩,
        ⟨fun hc => ?_, fun hc => ?_⟩, fun s hs => ?_, hlast⟩
      · cases hc
      · cases hc
      · obtain ⟨f, hf, hlt⟩ := hc.2
        have := hbnd f hf
        omega
      · cases hs
        exact ⟨rfl, hu, hbnd⟩

/-- Witness for C8: a duplicate id is rejected at build time. -/
theorem C8_witness :
    build [⟨1, 0, 4⟩, ⟨1, 0, 4⟩] 4
      = Except.error Schema_Build_Error_t.DuplicateFieldId :=
  (C8_build_time_validation [⟨1, 0, 4⟩, ⟨1, 0, 4⟩] 4).1.mpr (by decide)

end Serializer
